import Mathlib

/-!
Verification development for the KiCAD Prism repository.

The repository couples a React front end (present under `frontend/src`) with a
FastAPI backend (the Workflow Job Orchestrator, Process Runner, Job Registry,
Comment Store and Version-Control Sync Gateway).  The backend service code is
not among the provided sources, so those components are modelled from the
specification; definitions carrying a doc comment starting with
`Modelled from the spec:` are such models.  The front-end definitions
(`fetchAuthConfigEffect`, `renderApp`, `overlayFilter`, ...) are shallow
embeddings of the TypeScript in `frontend/src/App.tsx` and
`frontend/src/components/visualizer.tsx`.
-/

namespace KiCADPrism

/-! ## Comment data model

Embedded from the TypeScript type declarations for
`.kicad-prism/comments.json` (Comment Types for the KiCAD-Prism
Collaboration Feature) and spec section 3.  Numeric board-unit coordinates
are `number` (floating point) in TypeScript; no claim performs arithmetic on
them, so they are modelled as integers to keep equality decidable. -/

/-- Comment status - can be OPEN or RESOLVED. -/
inductive CommentStatus where
  | OPEN
  | RESOLVED
deriving DecidableEq, Repr

/-- Comment context - PCB or Schematic. -/
inductive CommentContext where
  | PCB
  | SCH
deriving DecidableEq, Repr

/-- Location information for a comment: x/y in board units (mm), layer name,
and an optional schematic-page identifier (filename or path). -/
structure CommentLocation where
  x : Int
  y : Int
  layer : String
  page : Option String
deriving DecidableEq, Repr

/-- A reply to a comment: author, ISO 8601 timestamp, content. -/
structure CommentReply where
  author : String
  timestamp : String
  content : String
deriving DecidableEq, Repr

/-- A design review comment, as stored in the per-project ledger. -/
structure Comment where
  id : String
  author : String
  timestamp : String
  status : CommentStatus
  context : CommentContext
  location : CommentLocation
  content : String
  replies : List CommentReply
deriving DecidableEq, Repr

/-- Metadata of the comments file. -/
structure CommentsMeta where
  version : String
  generator : String
deriving DecidableEq, Repr

/-- Root structure of the per-project ledger document
`.kicad-prism/comments.json`. -/
structure CommentsFile where
  meta : CommentsMeta
  comments : List Comment
deriving DecidableEq, Repr

/-! ## Comment Store (spec section 4.4)

The Comment Store lives in the absent backend; its operations are modelled
from the spec.  Each mutating operation is a read-modify-write over the
project ledger, here the `List Comment` of the ledger document; an operation
that fails returns the error together with the unchanged ledger. -/

/-- Error taxonomy of the Comment Store relevant to the claims. -/
inductive StoreError where
  | CommentNotFound
deriving DecidableEq, Repr

/-- Updates the status of the ledger entry with the given id, leaving all
other entries untouched. -/
def updStatus (cid : String) (s : CommentStatus) (d : Comment) : Comment :=
  if d.id == cid then { d with status := s } else d

/-- Appends a reply to the ledger entry with the given id, leaving all other
entries untouched. -/
def updReplies (cid : String) (r : CommentReply) (d : Comment) : Comment :=
  if d.id == cid then { d with replies := d.replies ++ [r] } else d

/-- Modelled from the spec: `setStatus(commentId, status) → Comment` of the
Comment Store (backend service code absent from the sources).  Fails with
`CommentNotFound` when the id is absent; otherwise rewrites the entry's
status and returns the updated entity together with the new ledger. -/
def setStatus (ledger : List Comment) (cid : String) (s : CommentStatus) :
    Except StoreError Comment × List Comment :=
  match ledger.find? (fun c => c.id == cid) with
  | none => (Except.error StoreError.CommentNotFound, ledger)
  | some c => (Except.ok { c with status := s }, ledger.map (updStatus cid s))

/-- Modelled from the spec: `reply(commentId, content, author) → Comment` of
the Comment Store (backend service code absent from the sources).  Appends to
the target comment's replies; fails with `CommentNotFound` if absent, leaving
the ledger unchanged. -/
def replyToComment (ledger : List Comment) (cid content author timestamp : String) :
    Except StoreError Comment × List Comment :=
  match ledger.find? (fun c => c.id == cid) with
  | none => (Except.error StoreError.CommentNotFound, ledger)
  | some c =>
    let r : CommentReply := { author := author, timestamp := timestamp, content := content }
    (Except.ok { c with replies := c.replies ++ [r] }, ledger.map (updReplies cid r))

/-- A create request together with the ledger-unique id produced by the
store's id generator (spec: "Generates a ledger-unique id"). -/
structure CreateRequest where
  id : String
  context : CommentContext
  location : CommentLocation
  content : String
  author : String
  timestamp : String
deriving DecidableEq, Repr

/-- The comment entity built by `create`: timestamped at creation,
`status = OPEN`, empty replies. -/
def mkComment (r : CreateRequest) : Comment :=
  { id := r.id, author := r.author, timestamp := r.timestamp,
    status := CommentStatus.OPEN, context := r.context,
    location := r.location, content := r.content, replies := [] }

/-- Modelled from the spec: `create(context, location, content, author)` of
the Comment Store (backend service code absent from the sources).  Appends
the new entity to the ledger and returns it. -/
def createComment (ledger : List Comment) (r : CreateRequest) : Comment × List Comment :=
  (mkComment r, ledger ++ [mkComment r])

/-- Sequential execution of a batch of `create` calls.  The spec's per-project
exclusivity guarantee serializes concurrent mutations, so every interleaving
of N concurrent `create` calls executes as some sequential order of them. -/
def runCreates (ledger : List Comment) (rs : List CreateRequest) : List Comment :=
  rs.foldl (fun l r => (createComment l r).2) ledger

/-! ## Workflow jobs (spec sections 3, 4.1, 4.2, 4.3)

The Workflow Job Orchestrator, Process Runner and Job Registry live in the
absent backend (`backend/app/services/project_service.py`); they are modelled
from the spec. -/

/-- The closed enumeration of workflow types. -/
inductive WorkflowType where
  | design
  | manufacturing
  | render
deriving DecidableEq, Repr

/-- Fixed workflow-type-to-output-identifier table (spec section 3). -/
def outputId : WorkflowType → String
  | WorkflowType.design => "28dab1d3-7bf2-4d8a-9723-bcdd14e1d814"
  | WorkflowType.manufacturing => "9e5c254b-cb26-4a49-beea-fa7af8a62903"
  | WorkflowType.render => "81c80ad4-e8b9-4c9a-8bed-df7864fdefc6"

/-- Validation of a requested workflow type against the fixed set; `none`
corresponds to the `InvalidWorkflowType` rejection. -/
def parseWorkflowType : String → Option WorkflowType
  | "design" => some WorkflowType.design
  | "manufacturing" => some WorkflowType.manufacturing
  | "render" => some WorkflowType.render
  | _ => none

/-- Job status enumeration. -/
inductive JobStatus where
  | queued
  | running
  | completed
  | failed
deriving DecidableEq, Repr

/-- A terminal status is `completed` or `failed`. -/
def JobStatus.isTerminal : JobStatus → Bool
  | JobStatus.completed => true
  | JobStatus.failed => true
  | _ => false

/-- A job record of the Job Registry (spec section 3): id unique within the
process lifetime, orderly append-only log lines, optional exit code and
timestamps. -/
structure Job where
  id : Nat
  projectId : String
  workflowType : WorkflowType
  status : JobStatus
  logLines : List String
  exitCode : Option Int
  startedAt : Option String
  finishedAt : Option String
deriving DecidableEq, Repr

/-- A project as the Orchestrator sees it: its id and its job-definition file
(`Outputs.kicad_jobset`), `none` when the file is absent, otherwise the list
of output identifiers the file defines. -/
structure Project where
  id : String
  jobsetOutputs : Option (List String)
deriving DecidableEq, Repr

/-- Synchronous submission errors of the Orchestrator (spec section 4.1). -/
inductive SubmitError where
  | InvalidWorkflowType
  | ProjectNotFound
  | JobsetMissing
  | OutputNotDefined
deriving DecidableEq, Repr

/-- Process-wide state the Orchestrator operates on: the known projects, the
Job Registry, and the next fresh job id. -/
structure OrchestratorState where
  projects : List Project
  registry : List Job
  nextJobId : Nat
deriving DecidableEq, Repr

/-- Looks up a project by id. -/
def findProject (st : OrchestratorState) (pid : String) : Option Project :=
  st.projects.find? (fun p => p.id == pid)

/-- Modelled from the spec: `submit(projectId, workflowType) → jobId` of the
Workflow Job Orchestrator (backend service code absent from the sources).
Validates the workflow type against the fixed set (`InvalidWorkflowType`),
project existence (`ProjectNotFound`), presence of the job-definition file
(`JobsetMissing`) and that it contains an entry for the mapped output
identifier (`OutputNotDefined`); validation failures are surfaced
synchronously before any job is created.  On success a new `queued` job is
allocated in the registry and its id returned. -/
def submit (st : OrchestratorState) (pid wt : String) :
    Except SubmitError Nat × OrchestratorState :=
  match parseWorkflowType wt with
  | none => (Except.error SubmitError.InvalidWorkflowType, st)
  | some w =>
    match findProject st pid with
    | none => (Except.error SubmitError.ProjectNotFound, st)
    | some proj =>
      match proj.jobsetOutputs with
      | none => (Except.error SubmitError.JobsetMissing, st)
      | some outs =>
        if outputId w ∈ outs then
          let job : Job :=
            { id := st.nextJobId, projectId := pid, workflowType := w,
              status := JobStatus.queued, logLines := [], exitCode := none,
              startedAt := none, finishedAt := none }
          (Except.ok st.nextJobId,
            { st with registry := st.registry ++ [job], nextJobId := st.nextJobId + 1 })
        else (Except.error SubmitError.OutputNotDefined, st)

/-- The events the Process Runner applies to a job record: transition to
`running` at process start, incremental capture of one produced output line,
process exit with a code, and the `ToolNotFound` failure path (the runner
has taken the job, so the job is already `running`, and is marked `failed`
with a synthetic log entry). -/
inductive JobEvent where
  | start (ts : String)
  | logLine (line : String)
  | exitWith (code : Int) (ts : String)
  | toolNotFound
deriving DecidableEq, Repr

/-- Modelled from the spec: the Process Runner's single-writer mutation of a
job record (backend service code absent from the sources).  `start` moves a
queued job to `running`; `logLine` appends one produced line while running;
`exitWith` moves a running job to `completed` on exit code 0 and to `failed`
on any other code, recording the code; `toolNotFound` marks a running job
`failed` with a synthetic log entry. -/
def applyEvent (j : Job) (e : JobEvent) : Job :=
  match e with
  | JobEvent.start ts =>
    if j.status = JobStatus.queued then
      { j with status := JobStatus.running, startedAt := some ts }
    else j
  | JobEvent.logLine l =>
    if j.status = JobStatus.running then { j with logLines := j.logLines ++ [l] }
    else j
  | JobEvent.exitWith c ts =>
    if j.status = JobStatus.running then
      { j with status := if c = 0 then JobStatus.completed else JobStatus.failed,
               exitCode := some c, finishedAt := some ts }
    else j
  | JobEvent.toolNotFound =>
    if j.status = JobStatus.running then
      { j with status := JobStatus.failed,
               logLines := j.logLines ++ ["ToolNotFound: external tool binary could not be located or started"] }
    else j

/-- Runs a sequence of runner events against a job record. -/
def runEvents (j : Job) (es : List JobEvent) : Job :=
  es.foldl applyEvent j

/-- The sequence of statuses a poller can observe along a sequence of runner
events, starting with the current one. -/
def statusTrace (j : Job) (es : List JobEvent) : List JobStatus :=
  (es.scanl applyEvent j).map Job.status

/-- The status transitions the spec permits: stay put, queued to running, or
running to a terminal status. -/
def allowedTransition (s t : JobStatus) : Prop :=
  s = t ∨
  (s = JobStatus.queued ∧ t = JobStatus.running) ∨
  (s = JobStatus.running ∧ (t = JobStatus.completed ∨ t = JobStatus.failed))

/-! ## Version-Control Sync Gateway (spec section 4.5) -/

/-- Repository-relative path of the per-project comment ledger document. -/
def ledgerRelPath : String := ".kicad-prism/comments.json"

/-- Default commit message used when the caller supplies none. -/
def defaultPushMessage : String := "Update design review comments"

/-- A git commit produced by the gateway: its author, message, and the staged
paths it includes. -/
structure CommitRecord where
  author : String
  message : String
  stagedPaths : List String
deriving DecidableEq, Repr

/-- Modelled from the spec: `pushReview(projectId, author, message)` of the
Version-Control Sync Gateway (backend service code absent from the sources).
Stages only the project's comment-ledger path and commits with the supplied
message or a generated default; the dirty paths of the working copy are given
as input and are not consulted for staging (scope containment). -/
def pushReview (workingCopyDirty : List String) (author : String)
    (message : Option String) : CommitRecord :=
  { author := author,
    message := message.getD defaultPushMessage,
    stagedPaths := [ledgerRelPath] }

/-! ## Front-end: authentication bootstrap (frontend/src/App.tsx) -/

/-- An authenticated user (frontend/src/App.tsx, interface User). -/
structure AuthUser where
  name : String
  email : String
  picture : Option String
deriving DecidableEq, Repr

/-- The auth configuration served by `/api/auth/config`
(frontend/src/App.tsx, interface AuthConfig). -/
structure AuthConfig where
  auth_enabled : Bool
  dev_mode : Bool
  google_client_id : String
deriving DecidableEq, Repr

/-- Result of the `fetch` of `/api/auth/config` as App.tsx discriminates it:
the fetch resolved with `res.ok` and a parsed config, resolved non-ok, or
threw (network failure). -/
inductive AuthFetchResult where
  | ok (config : AuthConfig)
  | notOk
  | thrown
deriving DecidableEq, Repr

/-- The component state of `App` relevant to authentication. -/
structure AppState where
  user : Option AuthUser
  authConfig : Option AuthConfig
  loading : Bool
deriving DecidableEq, Repr

/-- The guest user App.tsx logs in when authentication is disabled or the
config fetch throws. -/
def guestUser : AuthUser :=
  { name := "Guest", email := "guest@local", picture := none }

/-- Embedding of `fetchAuthConfig` in App.tsx: on an ok response the config
is stored and, when auth is disabled, the user is auto-logged-in as guest; on
a non-ok response nothing is stored; on a thrown error the user defaults to
guest; in every case loading ends. -/
def fetchAuthConfigEffect (r : AuthFetchResult) : AppState :=
  match r with
  | AuthFetchResult.ok config =>
    { user := if config.auth_enabled then none else some guestUser,
      authConfig := some config, loading := false }
  | AuthFetchResult.notOk => { user := none, authConfig := none, loading := false }
  | AuthFetchResult.thrown => { user := some guestUser, authConfig := none, loading := false }

/-- The view `App` renders. -/
inductive RenderedView where
  | loadingView
  | missingClientIdError
  | loginPage
  | mainApp
deriving DecidableEq, Repr

/-- Embedding of the render branch of `App` in App.tsx: the loading screen
while fetching; the login page (or the missing-client-id error) only when the
fetched config has auth enabled and there is no user; the full application
otherwise. -/
def renderApp (s : AppState) : RenderedView :=
  if s.loading then RenderedView.loadingView
  else
    match s.authConfig with
    | some cfg =>
      if cfg.auth_enabled && s.user.isNone then
        if cfg.google_client_id = "" then RenderedView.missingClientIdError
        else RenderedView.loginPage
      else RenderedView.mainApp
    | none => RenderedView.mainApp

/-! ## Front-end: comment overlay filter
(frontend/src/components/visualizer.tsx, `overlayComments`) -/

/-- Embedding of the page normalizer `norm` inside `overlayComments`:
for a non-empty page identifier, the last segment after splitting on a slash,
falling back to the whole identifier when that segment is empty. -/
def normPage (p : String) : String :=
  if p = "" then ""
  else
    let last := (p.splitOn "/").getLastD p
    if last = "" then p else last

/-- Embedding of the root-page test in `overlayComments`: a normalized page
names the root schematic page when it is `root.kicad_sch` or `root`. -/
def isRootPage (p : String) : Bool :=
  p == "root.kicad_sch" || p == "root"

/-- Embedding of the filter predicate of `overlayComments` in visualizer.tsx:
a comment is shown only for the active context; in the SCH context the
normalized comment page must match the normalized active page, with the two
root spellings identified; the PCB context is not filtered by page. -/
def overlayFilter (activeContext : CommentContext) (activePage : String)
    (c : Comment) : Bool :=
  if c.context ≠ activeContext then false
  else if activeContext = CommentContext.SCH then
    let cPage := normPage (c.location.page.getD "")
    let aPage := normPage activePage
    if isRootPage aPage && isRootPage cPage then true
    else cPage == aPage
  else true

/-- Embedding of `overlayComments` in visualizer.tsx: the comments shown as
pins in the design overlay. -/
def overlayComments (comments : List Comment) (activeContext : CommentContext)
    (activePage : String) : List Comment :=
  comments.filter (overlayFilter activeContext activePage)

/-- The page-match condition of the SCH overlay filter, as a relation on
normalized pages: equal, or both naming the root page. -/
def samePage (p q : String) : Prop :=
  (isRootPage p = true ∧ isRootPage q = true) ∨ p = q

/-! ## Sample data used by the witness theorems -/

/-- A sample board location. -/
def sampleLoc : CommentLocation :=
  { x := 12, y := 3, layer := "F.Cu", page := none }

/-- A sample ledger entry. -/
def sampleComment : Comment :=
  { id := "c_8a7b9c", author := "alice", timestamp := "2026-01-01T00:00:00Z",
    status := CommentStatus.OPEN, context := CommentContext.PCB,
    location := sampleLoc, content := "check footprint", replies := [] }

/-- A sample project whose job-definition file is absent. -/
def sampleProjectNoJobset : Project :=
  { id := "p1", jobsetOutputs := none }

/-- A sample orchestrator state holding only `sampleProjectNoJobset`. -/
def sampleOrchState : OrchestratorState :=
  { projects := [sampleProjectNoJobset], registry := [], nextJobId := 0 }

/-- A sample freshly queued job. -/
def sampleQueuedJob : Job :=
  { id := 0, projectId := "p1", workflowType := WorkflowType.render,
    status := JobStatus.queued, logLines := [], exitCode := none,
    startedAt := none, finishedAt := none }

/-- A sample running job with one captured log line. -/
def sampleRunningJob : Job :=
  { id := 0, projectId := "p1", workflowType := WorkflowType.render,
    status := JobStatus.running, logLines := ["Plotting schematic"], exitCode := none,
    startedAt := some "t0", finishedAt := none }

/-! ## Helper lemmas -/

/-- A list is a prefix of itself followed by anything. -/
theorem listPre_append_right {α : Type} (l t : List α) : l <+: l ++ t :=
  ⟨t, rfl⟩

/-- Transitivity of the list-prefix order. -/
theorem listPre_trans {α : Type} {l₁ l₂ l₃ : List α}
    (h₁ : l₁ <+: l₂) (h₂ : l₂ <+: l₃) : l₁ <+: l₃ := by
  obtain ⟨a, ha⟩ := h₁
  obtain ⟨b, hb⟩ := h₂
  exact ⟨a ++ b, by rw [← hb, ← ha, List.append_assoc]⟩

/-- Each runner event can only extend a job's log lines. -/
theorem applyEvent_logLines_pre (j : Job) (e : JobEvent) :
    j.logLines <+: (applyEvent j e).logLines := by
  cases e with
  | start ts =>
    by_cases h : j.status = JobStatus.queued <;> simp [applyEvent, h]
  | logLine l =>
    by_cases h : j.status = JobStatus.running <;> simp [applyEvent, h]
  | exitWith c ts =>
    by_cases h : j.status = JobStatus.running <;> simp [applyEvent, h]
  | toolNotFound =>
    by_cases h : j.status = JobStatus.running <;> simp [applyEvent, h]

/-- Running any event sequence can only extend a job's log lines. -/
theorem runEvents_logLines_pre (es : List JobEvent) (j : Job) :
    j.logLines <+: (runEvents j es).logLines := by
  induction es generalizing j with
  | nil =>
    show j.logLines <+: j.logLines
    exact ⟨[], List.append_nil _⟩
  | cons e es ih =>
    exact listPre_trans (applyEvent_logLines_pre j e) (ih (applyEvent j e))

/-- Each runner event performs a permitted status transition. -/
theorem applyEvent_status_allowed (j : Job) (e : JobEvent) :
    allowedTransition j.status (applyEvent j e).status := by
  cases e with
  | start ts =>
    by_cases h : j.status = JobStatus.queued <;>
      simp [applyEvent, h, allowedTransition]
  | logLine l =>
    by_cases h : j.status = JobStatus.running <;>
      simp [applyEvent, h, allowedTransition]
  | exitWith c ts =>
    by_cases h : j.status = JobStatus.running
    · by_cases hc : c = 0 <;> simp [applyEvent, h, hc, allowedTransition]
    · simp [applyEvent, h, allowedTransition]
  | toolNotFound =>
    by_cases h : j.status = JobStatus.running <;>
      simp [applyEvent, h, allowedTransition]

/-- Runner events leave a job in a terminal status untouched. -/
theorem applyEvent_terminal_fix (j : Job) (e : JobEvent)
    (h : j.status.isTerminal = true) : applyEvent j e = j := by
  have h1 : j.status ≠ JobStatus.queued := by
    intro hq; rw [hq] at h; simp [JobStatus.isTerminal] at h
  have h2 : j.status ≠ JobStatus.running := by
    intro hq; rw [hq] at h; simp [JobStatus.isTerminal] at h
  cases e <;> simp [applyEvent, h1, h2]

/-- Running any event sequence leaves a job in a terminal status untouched. -/
theorem runEvents_terminal_fix (es : List JobEvent) (j : Job)
    (h : j.status.isTerminal = true) : runEvents j es = j := by
  induction es with
  | nil => rfl
  | cons e es ih =>
    show runEvents (applyEvent j e) es = j
    rw [applyEvent_terminal_fix j e h]
    exact ih

/-- The head of a scan is the initial accumulator. -/
theorem scanl_head {α β : Type} (f : β → α → β) (b : β) (l : List α) :
    (List.scanl f b l).head? = some b := by
  cases l <;> rfl

/-- A scan along a step function whose every step satisfies a relation is a
chain for that relation. -/
theorem chain_scanl {α β : Type} (R : β → β → Prop) (f : β → α → β)
    (hf : ∀ b a, R b (f b a)) :
    ∀ (l : List α) (b : β), List.Chain' R (List.scanl f b l) := by
  intro l
  induction l with
  | nil => intro b; simp [List.scanl]
  | cons a l ih =>
    intro b
    show List.Chain' R (b :: List.scanl f (f b a) l)
    refine List.chain'_cons'.mpr ⟨?_, ih (f b a)⟩
    intro y hy
    rw [scanl_head] at hy
    cases hy
    exact hf b a

/-- The observable status trace of a job is a chain of permitted
transitions. -/
theorem statusTrace_chain (j : Job) (es : List JobEvent) :
    List.Chain' allowedTransition (statusTrace j es) := by
  unfold statusTrace
  rw [List.chain'_map]
  exact chain_scanl (fun a b => allowedTransition a.status b.status)
    applyEvent applyEvent_status_allowed es j

/-- updStatus preserves the id field. -/
theorem updStatus_id (cid : String) (s : CommentStatus) (d : Comment) :
    (updStatus cid s d).id = d.id := by
  unfold updStatus
  split <;> rfl

/-- Applying the same status update twice is the same as applying it once. -/
theorem updStatus_comp (cid : String) (s : CommentStatus) (d : Comment) :
    updStatus cid s (updStatus cid s d) = updStatus cid s d := by
  unfold updStatus
  by_cases h : d.id == cid <;> simp [h]

/-- In the ledger after a status update, every entry carrying the target id
carries the new status. -/
theorem updStatus_hits (cid : String) (s : CommentStatus) (d : Comment)
    (h : d.id = cid) : (updStatus cid s d).status = s := by
  unfold updStatus
  simp [h]

/-- Filtering by id commutes with a map that preserves ids, up to length. -/
theorem filter_id_map_length (l : List Comment) (f : Comment → Comment)
    (hf : ∀ c, (f c).id = c.id) (k : String) :
    ((l.map f).filter (fun c => c.id == k)).length =
      (l.filter (fun c => c.id == k)).length := by
  induction l with
  | nil => rfl
  | cons c t ih =>
    simp only [List.map_cons, List.filter_cons, hf c]
    by_cases h : (c.id == k) = true <;> simp [h, ih]

/-- A ledger with duplicate-free ids has exactly one entry for the id of any
of its members. -/
theorem count_one_of_nodup (l : List Comment) (k : String)
    (hd : (l.map Comment.id).Nodup) (hm : ∃ c ∈ l, c.id = k) :
    (l.filter (fun c => c.id == k)).length = 1 := by
  induction l with
  | nil => simp at hm
  | cons c t ih =>
    rw [List.map_cons, List.nodup_cons] at hd
    obtain ⟨hni, hnd⟩ := hd
    by_cases hc : c.id = k
    · have ht : t.filter (fun x => x.id == k) = [] := by
        rw [List.filter_eq_nil_iff]
        intro x hx
        simp only [beq_iff_eq]
        intro hxk
        exact hni (by rw [← hc] at hxk; exact hxk ▸ List.mem_map_of_mem Comment.id hx)
      simp [List.filter_cons, hc, ht]
    · obtain ⟨w, hw, hwk⟩ := hm
      rcases List.mem_cons.mp hw with rfl | hwt
      · exact absurd hwk hc
      · simp only [List.filter_cons, beq_iff_eq, hc, if_false, decide_eq_true_eq]
        exact ih hnd ⟨w, hwt, hwk⟩

/-! ## Claim theorems -/

/-- C1: when the workflow type is valid and the project exists but the
project's job-definition file is absent (or lacks an entry for the mapped
output identifier), `submit` fails synchronously with `JobsetMissing`
(respectively `OutputNotDefined`) and returns the state unchanged: no job is
created and the job registry is untouched. -/
theorem submit_missing_jobset_rejected (st : OrchestratorState) (pid wt : String)
    (w : WorkflowType) (proj : Project)
    (hw : parseWorkflowType wt = some w)
    (hp : findProject st pid = some proj)
    (hbad : proj.jobsetOutputs = none ∨
      ∃ outs, proj.jobsetOutputs = some outs ∧ outputId w ∉ outs) :
    (submit st pid wt).2 = st ∧
    ((proj.jobsetOutputs = none ∧
        (submit st pid wt).1 = Except.error SubmitError.JobsetMissing) ∨
     ((∃ outs, proj.jobsetOutputs = some outs ∧ outputId w ∉ outs) ∧
        (submit st pid wt).1 = Except.error SubmitError.OutputNotDefined)) := by
  rcases hbad with h | ⟨outs, ho, hno⟩
  · have hs : submit st pid wt = (Except.error SubmitError.JobsetMissing, st) := by
      simp only [submit, hw, hp, h]
    rw [hs]
    exact ⟨rfl, Or.inl ⟨h, rfl⟩⟩
  · have hs : submit st pid wt = (Except.error SubmitError.OutputNotDefined, st) := by
      simp only [submit, hw, hp, ho, if_neg hno]
    rw [hs]
    exact ⟨rfl, Or.inr ⟨⟨outs, ho, hno⟩, rfl⟩⟩

/-- Witness for C1 at a concrete orchestrator state whose only project lacks
the job-definition file. -/
theorem submit_missing_jobset_witness :
    parseWorkflowType "render" = some WorkflowType.render ∧
    findProject sampleOrchState "p1" = some sampleProjectNoJobset ∧
    ((submit sampleOrchState "p1" "render").2 = sampleOrchState ∧
     ((sampleProjectNoJobset.jobsetOutputs = none ∧
        (submit sampleOrchState "p1" "render").1 =
          Except.error SubmitError.JobsetMissing) ∨
      ((∃ outs, sampleProjectNoJobset.jobsetOutputs = some outs ∧
          outputId WorkflowType.render ∉ outs) ∧
        (submit sampleOrchState "p1" "render").1 =
          Except.error SubmitError.OutputNotDefined))) :=
  ⟨rfl, rfl,
    submit_missing_jobset_rejected sampleOrchState "p1" "render"
      WorkflowType.render sampleProjectNoJobset rfl rfl (Or.inl rfl)⟩

/-- Sample create requests used by the concurrency witness. -/
def sampleReq1 : CreateRequest :=
  { id := "c_n1", context := CommentContext.PCB, location := sampleLoc,
    content := "first", author := "alice", timestamp := "t1" }

/-- Second sample create request. -/
def sampleReq2 : CreateRequest :=
  { id := "c_n2", context := CommentContext.SCH, location := sampleLoc,
    content := "second", author := "bob", timestamp := "t2" }

/-- C2: along any sequence of runner events the observable status trace is a
chain of the permitted transitions (queued to running, running to completed,
running to failed, or no change), and once a job has reached a terminal
status no further events ever change its status. -/
theorem job_status_transition_invariant (j : Job) (es more : List JobEvent) :
    List.Chain' allowedTransition (statusTrace j es) ∧
    ((runEvents j es).status.isTerminal = true →
      (runEvents (runEvents j es) more).status = (runEvents j es).status) := by
  refine ⟨statusTrace_chain j es, fun h => ?_⟩
  rw [runEvents_terminal_fix more (runEvents j es) h]

/-- Witness for C2 on a concrete queued job run to completion and then
bombarded with one further event. -/
theorem job_status_transition_witness :
    List.Chain' allowedTransition
      (statusTrace sampleQueuedJob
        [JobEvent.start "t0", JobEvent.logLine "l1", JobEvent.exitWith 0 "t1"]) ∧
    ((runEvents sampleQueuedJob
        [JobEvent.start "t0", JobEvent.logLine "l1", JobEvent.exitWith 0 "t1"]).status.isTerminal = true →
      (runEvents
        (runEvents sampleQueuedJob
          [JobEvent.start "t0", JobEvent.logLine "l1", JobEvent.exitWith 0 "t1"])
        [JobEvent.logLine "late"]).status =
      (runEvents sampleQueuedJob
        [JobEvent.start "t0", JobEvent.logLine "l1", JobEvent.exitWith 0 "t1"]).status) :=
  job_status_transition_invariant sampleQueuedJob
    [JobEvent.start "t0", JobEvent.logLine "l1", JobEvent.exitWith 0 "t1"]
    [JobEvent.logLine "late"]

/-- C3: job log lines are append-only: the snapshot after any event sequence
is a prefix of the snapshot after any extension of that sequence (so a later
snapshot never has fewer lines), and each produced line is appended to the
log of a running job at the moment its event arrives. -/
theorem job_logs_append_only (j : Job) (es more : List JobEvent) :
    (runEvents j es).logLines <+: (runEvents j (es ++ more)).logLines ∧
    (∀ l, j.status = JobStatus.running →
      (applyEvent j (JobEvent.logLine l)).logLines = j.logLines ++ [l]) := by
  constructor
  · unfold runEvents
    rw [List.foldl_append]
    exact runEvents_logLines_pre more (runEvents j es)
  · intro l h
    simp [applyEvent, h]

/-- Witness for C3 on a concrete running job observed before and after two
more log lines arrive. -/
theorem job_logs_append_only_witness :
    (runEvents sampleRunningJob [JobEvent.logLine "a"]).logLines <+:
      (runEvents sampleRunningJob
        ([JobEvent.logLine "a"] ++ [JobEvent.logLine "b", JobEvent.logLine "c"])).logLines ∧
    (∀ l, sampleRunningJob.status = JobStatus.running →
      (applyEvent sampleRunningJob (JobEvent.logLine l)).logLines =
        sampleRunningJob.logLines ++ [l]) :=
  job_logs_append_only sampleRunningJob [JobEvent.logLine "a"]
    [JobEvent.logLine "b", JobEvent.logLine "c"]

/-- C4: for a running job whose external-tool process exits, exit code 0
yields status `completed` and any nonzero exit code yields status `failed`;
the log lines produced up to exit are retained, the exit code is recorded,
and the reached status is final under any further events. -/
theorem exit_code_determines_final_status (j : Job) (c : Int) (ts : String)
    (h : j.status = JobStatus.running) :
    ((c = 0 → (applyEvent j (JobEvent.exitWith c ts)).status = JobStatus.completed) ∧
     (c ≠ 0 → (applyEvent j (JobEvent.exitWith c ts)).status = JobStatus.failed)) ∧
    (applyEvent j (JobEvent.exitWith c ts)).logLines = j.logLines ∧
    (applyEvent j (JobEvent.exitWith c ts)).exitCode = some c ∧
    (∀ more, (runEvents (applyEvent j (JobEvent.exitWith c ts)) more).status =
      (applyEvent j (JobEvent.exitWith c ts)).status) := by
  have hterm : (applyEvent j (JobEvent.exitWith c ts)).status.isTerminal = true := by
    by_cases hc : c = 0 <;> simp [applyEvent, h, hc, JobStatus.isTerminal]
  refine ⟨⟨fun hc => by simp [applyEvent, h, hc],
           fun hc => by simp [applyEvent, h, hc]⟩,
    by simp [applyEvent, h], by simp [applyEvent, h],
    fun more => by rw [runEvents_terminal_fix more _ hterm]⟩

/-- Witness for C4 on a concrete running job exiting with code 0. -/
theorem exit_code_determines_final_status_witness :
    ((0 = (0 : Int) →
        (applyEvent sampleRunningJob (JobEvent.exitWith 0 "t1")).status = JobStatus.completed) ∧
     ((0 : Int) ≠ 0 →
        (applyEvent sampleRunningJob (JobEvent.exitWith 0 "t1")).status = JobStatus.failed)) ∧
    (applyEvent sampleRunningJob (JobEvent.exitWith 0 "t1")).logLines =
      sampleRunningJob.logLines ∧
    (applyEvent sampleRunningJob (JobEvent.exitWith 0 "t1")).exitCode = some 0 ∧
    (∀ more, (runEvents (applyEvent sampleRunningJob (JobEvent.exitWith 0 "t1")) more).status =
      (applyEvent sampleRunningJob (JobEvent.exitWith 0 "t1")).status) :=
  exit_code_determines_final_status sampleRunningJob 0 "t1" rfl

/-- C5: for a comment id present in a ledger with duplicate-free ids,
applying `setStatus` twice equals applying it once: the second application
leaves the ledger unchanged and still returns the current entity, and the
ledger afterwards contains exactly one entry for the id, that entry carrying
the new status, with no duplicates created. -/
theorem setStatus_idempotent (ledger : List Comment) (cid : String) (s : CommentStatus)
    (hmem : ∃ c ∈ ledger, c.id = cid)
    (hnodup : (ledger.map Comment.id).Nodup) :
    (setStatus (setStatus ledger cid s).2 cid s).2 = (setStatus ledger cid s).2 ∧
    (setStatus (setStatus ledger cid s).2 cid s).1 = (setStatus ledger cid s).1 ∧
    (∃ c, (setStatus (setStatus ledger cid s).2 cid s).1 = Except.ok c ∧
      c.id = cid ∧ c.status = s ∧ c ∈ (setStatus ledger cid s).2) ∧
    ((setStatus ledger cid s).2.filter (fun c => c.id == cid)).length = 1 ∧
    (∀ c ∈ (setStatus ledger cid s).2, c.id = cid → c.status = s) ∧
    (setStatus ledger cid s).2.length = ledger.length := by
  obtain ⟨c₀, hc₀mem, hc₀id⟩ := hmem
  have hsome : (ledger.find? (fun c => c.id == cid)).isSome :=
    List.find?_isSome.mpr ⟨c₀, hc₀mem, by simp [hc₀id]⟩
  obtain ⟨a, ha⟩ := Option.isSome_iff_exists.mp hsome
  have haid : a.id = cid := by
    have hpa := List.find?_some ha
    simpa using hpa
  have hamem : a ∈ ledger := List.mem_of_find?_eq_some ha
  have h1 : setStatus ledger cid s =
      (Except.ok { a with status := s }, ledger.map (updStatus cid s)) := by
    simp only [setStatus, ha]
  have hpf : ((fun c => c.id == cid) ∘ updStatus cid s) = (fun c => c.id == cid) := by
    funext d
    simp [Function.comp, updStatus_id]
  have hfind2 : (ledger.map (updStatus cid s)).find? (fun c => c.id == cid) =
      some (updStatus cid s a) := by
    rw [List.find?_map, hpf, ha]
    rfl
  have hupda : updStatus cid s a = { a with status := s } := by
    unfold updStatus
    simp [haid]
  have h2 : setStatus (ledger.map (updStatus cid s)) cid s =
      (Except.ok { updStatus cid s a with status := s },
       (ledger.map (updStatus cid s)).map (updStatus cid s)) := by
    simp only [setStatus, hfind2]
  have hsetset : ({ updStatus cid s a with status := s } : Comment) =
      { a with status := s } := by
    rw [hupda]
  have hmapidem : (ledger.map (updStatus cid s)).map (updStatus cid s) =
      ledger.map (updStatus cid s) := by
    rw [List.map_map]
    exact List.map_congr_left fun d _ => updStatus_comp cid s d
  refine ⟨?_, ?_, ?_, ?_, ?_, ?_⟩
  · simp only [h1, h2, hmapidem]
  · simp only [h1, h2, hsetset]
  · refine ⟨{ a with status := s }, by simp only [h1, h2, hsetset], by simp [haid], rfl, ?_⟩
    simp only [h1]
    rw [← hupda]
    exact List.mem_map_of_mem (updStatus cid s) hamem
  · simp only [h1]
    rw [filter_id_map_length ledger (updStatus cid s) (updStatus_id cid s) cid]
    exact count_one_of_nodup ledger cid hnodup ⟨c₀, hc₀mem, hc₀id⟩
  · simp only [h1]
    intro c hc hcid
    obtain ⟨d, hd, rfl⟩ := List.mem_map.mp hc
    exact updStatus_hits cid s d (by rw [← updStatus_id cid s d]; exact hcid)
  · simp only [h1, List.length_map]

/-- Witness for C5 on a concrete one-entry ledger resolved twice. -/
theorem setStatus_idempotent_witness :
    (∃ c ∈ [sampleComment], c.id = "c_8a7b9c") ∧
    (([sampleComment].map Comment.id).Nodup ∧
     ((setStatus (setStatus [sampleComment] "c_8a7b9c" CommentStatus.RESOLVED).2
        "c_8a7b9c" CommentStatus.RESOLVED).2 =
        (setStatus [sampleComment] "c_8a7b9c" CommentStatus.RESOLVED).2 ∧
      (setStatus (setStatus [sampleComment] "c_8a7b9c" CommentStatus.RESOLVED).2
        "c_8a7b9c" CommentStatus.RESOLVED).1 =
        (setStatus [sampleComment] "c_8a7b9c" CommentStatus.RESOLVED).1 ∧
      (∃ c, (setStatus (setStatus [sampleComment] "c_8a7b9c" CommentStatus.RESOLVED).2
          "c_8a7b9c" CommentStatus.RESOLVED).1 = Except.ok c ∧
        c.id = "c_8a7b9c" ∧ c.status = CommentStatus.RESOLVED ∧
        c ∈ (setStatus [sampleComment] "c_8a7b9c" CommentStatus.RESOLVED).2) ∧
      ((setStatus [sampleComment] "c_8a7b9c" CommentStatus.RESOLVED).2.filter
        (fun c => c.id == "c_8a7b9c")).length = 1 ∧
      (∀ c ∈ (setStatus [sampleComment] "c_8a7b9c" CommentStatus.RESOLVED).2,
        c.id = "c_8a7b9c" → c.status = CommentStatus.RESOLVED) ∧
      (setStatus [sampleComment] "c_8a7b9c" CommentStatus.RESOLVED).2.length =
        [sampleComment].length)) :=
  ⟨⟨sampleComment, by simp, rfl⟩, by simp [sampleComment],
    setStatus_idempotent [sampleComment] "c_8a7b9c" CommentStatus.RESOLVED
      ⟨sampleComment, by simp, rfl⟩ (by simp [sampleComment])⟩

/-- C6: a reply to a comment id absent from the ledger fails with
`CommentNotFound` and returns the ledger unchanged: no comment is added, no
reply appended, no existing entry modified. -/
theorem reply_comment_not_found (ledger : List Comment) (cid content author ts : String)
    (h : ∀ c ∈ ledger, c.id ≠ cid) :
    replyToComment ledger cid content author ts =
      (Except.error StoreError.CommentNotFound, ledger) := by
  have hf : ledger.find? (fun c => c.id == cid) = none := by
    rw [List.find?_eq_none]
    intro c hc
    simp [h c hc]
  simp only [replyToComment, hf]

/-- Witness for C6 on a concrete ledger and the ghost id of the spec's
scenario 4. -/
theorem reply_comment_not_found_witness :
    (∀ c ∈ [sampleComment], c.id ≠ "c_ghost") ∧
    replyToComment [sampleComment] "c_ghost" "looks wrong" "bob" "t2" =
      (Except.error StoreError.CommentNotFound, [sampleComment]) :=
  ⟨by decide, reply_comment_not_found [sampleComment] "c_ghost" "looks wrong" "bob" "t2"
    (by decide)⟩

/-- C7: a `pushReview` commit stages exactly the comment-ledger path, so a
dirty working-copy path other than the ledger document is never included in
the resulting commit. -/
theorem pushReview_scope_containment (dirty : List String) (author : String)
    (message : Option String) (p : String) (hp : p ∈ dirty) (hne : p ≠ ledgerRelPath) :
    (pushReview dirty author message).stagedPaths = [ledgerRelPath] ∧
    p ∉ (pushReview dirty author message).stagedPaths := by
  refine ⟨rfl, fun hmem => ?_⟩
  have : p ∈ [ledgerRelPath] := hmem
  exact hne (List.mem_singleton.mp this)

/-- Witness for C7 with an unrelated dirty file in the working copy. -/
theorem pushReview_scope_containment_witness :
    "board.kicad_pcb" ∈ ["board.kicad_pcb", ledgerRelPath] ∧
    "board.kicad_pcb" ≠ ledgerRelPath ∧
    ((pushReview ["board.kicad_pcb", ledgerRelPath] "alice" none).stagedPaths =
      [ledgerRelPath] ∧
     "board.kicad_pcb" ∉
      (pushReview ["board.kicad_pcb", ledgerRelPath] "alice" none).stagedPaths) :=
  ⟨by simp, by decide,
    pushReview_scope_containment ["board.kicad_pcb", ledgerRelPath] "alice" none
      "board.kicad_pcb" (by simp) (by decide)⟩

/-- Executing a batch of creates appends the corresponding entities in
order. -/
theorem runCreates_eq : ∀ (rs : List CreateRequest) (ledger : List Comment),
    runCreates ledger rs = ledger ++ rs.map mkComment := by
  intro rs
  induction rs with
  | nil => intro ledger; simp [runCreates]
  | cons r rs ih =>
    intro ledger
    show runCreates (ledger ++ [mkComment r]) rs = _
    rw [ih (ledger ++ [mkComment r])]
    simp

/-- C8: under the per-project exclusivity guarantee, N concurrent `create`
calls execute as some sequential order of the N requests; for every such
order, when the generated ids are fresh for the ledger and pairwise
distinct, the final ledger is the original ledger plus the N created
entities, its length grows by exactly N, its ids stay duplicate-free, and
every one of the N created comments is present — no write is lost. -/
theorem concurrent_creates_lose_no_write (ledger : List Comment)
    (rs rs' : List CreateRequest) (hperm : rs.Perm rs')
    (hfresh : (ledger.map Comment.id ++ rs.map CreateRequest.id).Nodup) :
    runCreates ledger rs' = ledger ++ rs'.map mkComment ∧
    (runCreates ledger rs').length = ledger.length + rs.length ∧
    ((runCreates ledger rs').map Comment.id).Nodup ∧
    ∀ r ∈ rs, mkComment r ∈ runCreates ledger rs' := by
  have he : runCreates ledger rs' = ledger ++ rs'.map mkComment :=
    runCreates_eq rs' ledger
  refine ⟨he, ?_, ?_, ?_⟩
  · rw [he]
    simp [hperm.length_eq]
  · rw [he]
    have hmapid : (ledger ++ rs'.map mkComment).map Comment.id =
        ledger.map Comment.id ++ rs'.map CreateRequest.id := by
      rw [List.map_append, List.map_map]
      rfl
    rw [hmapid]
    have hpermid : (ledger.map Comment.id ++ rs.map CreateRequest.id).Perm
        (ledger.map Comment.id ++ rs'.map CreateRequest.id) :=
      List.Perm.append_left _ (hperm.map CreateRequest.id)
    exact hpermid.nodup hfresh
  · intro r hr
    rw [he]
    exact List.mem_append_right _ (List.mem_map_of_mem mkComment (hperm.mem_iff.mp hr))

/-- Witness for C8: two concurrent creates on a one-entry ledger, executed
in the swapped order. -/
theorem concurrent_creates_lose_no_write_witness :
    [sampleReq1, sampleReq2].Perm [sampleReq2, sampleReq1] ∧
    ([sampleComment].map Comment.id ++
      [sampleReq1, sampleReq2].map CreateRequest.id).Nodup ∧
    (runCreates [sampleComment] [sampleReq2, sampleReq1] =
      [sampleComment] ++ [sampleReq2, sampleReq1].map mkComment ∧
     (runCreates [sampleComment] [sampleReq2, sampleReq1]).length =
      [sampleComment].length + [sampleReq1, sampleReq2].length ∧
     ((runCreates [sampleComment] [sampleReq2, sampleReq1]).map Comment.id).Nodup ∧
     ∀ r ∈ [sampleReq1, sampleReq2],
      mkComment r ∈ runCreates [sampleComment] [sampleReq2, sampleReq1]) :=
  ⟨List.Perm.swap sampleReq2 sampleReq1 [], by decide,
    concurrent_creates_lose_no_write [sampleComment] [sampleReq1, sampleReq2]
      [sampleReq2, sampleReq1] (List.Perm.swap sampleReq2 sampleReq1 []) (by decide)⟩

/-- C9: when the fetch of `/api/auth/config` throws (for example on a
network failure), `App` sets the user to the guest `Guest`/`guest@local`
identity, stores no auth configuration, and renders the full application
rather than the login page — authentication fails open on a
configuration-fetch error. -/
theorem auth_config_fetch_error_fails_open :
    fetchAuthConfigEffect AuthFetchResult.thrown =
      { user := some guestUser, authConfig := none, loading := false } ∧
    guestUser = { name := "Guest", email := "guest@local", picture := none } ∧
    renderApp (fetchAuthConfigEffect AuthFetchResult.thrown) = RenderedView.mainApp :=
  ⟨rfl, rfl, rfl⟩

/-- The SCH overlay filter condition, on normalized pages, coincides with
`samePage`. -/
theorem overlayFilter_eq_true_iff (ctx : CommentContext) (aPage : String) (c : Comment) :
    overlayFilter ctx aPage c = true ↔
      (c.context = ctx ∧ (ctx = CommentContext.SCH →
        samePage (normPage (c.location.page.getD "")) (normPage aPage))) := by
  by_cases hctx : c.context = ctx
  · cases ctx with
    | PCB =>
      simp [overlayFilter, hctx, samePage]
    | SCH =>
      by_cases hr : (isRootPage (normPage aPage) &&
          isRootPage (normPage (c.location.page.getD ""))) = true
      · obtain ⟨hrA, hrC⟩ := Bool.and_eq_true_iff.mp hr
        simp [overlayFilter, hctx, samePage, hr, hrA, hrC]
      · have hlhs : overlayFilter CommentContext.SCH aPage c = true ↔
            normPage (c.location.page.getD "") = normPage aPage := by
          simp [overlayFilter, hctx, hr]
        rw [hlhs]
        constructor
        · intro heq
          exact ⟨hctx, fun _ => Or.inr heq⟩
        · rintro ⟨-, himp⟩
          have hsp := himp rfl
          unfold samePage at hsp
          rcases hsp with ⟨hrC, hrA⟩ | heq
          · exact absurd (Bool.and_eq_true_iff.mpr ⟨hrA, hrC⟩) hr
          · exact heq
  · simp [overlayFilter, hctx]

/-- C10: a comment is shown as an overlay pin exactly when its context
matches the active context and, in the SCH context, the final path segment
of its page (as the viewer normalizes it) matches that of the active page,
the spellings `root` and `root.kicad_sch` being identified; comments in the
PCB context are never filtered by page. -/
theorem overlay_pin_filter (comments : List Comment) (ctx : CommentContext)
    (aPage : String) (c : Comment) :
    c ∈ overlayComments comments ctx aPage ↔
      (c ∈ comments ∧ c.context = ctx ∧
       (ctx = CommentContext.SCH →
         samePage (normPage (c.location.page.getD "")) (normPage aPage))) := by
  unfold overlayComments
  rw [List.mem_filter, overlayFilter_eq_true_iff]

/-- Witness for C10: a concrete PCB comment shown while the PCB context is
active, independent of the active page. -/
theorem overlay_pin_filter_witness :
    sampleComment ∈ overlayComments [sampleComment] CommentContext.PCB "root.kicad_sch" ↔
      (sampleComment ∈ [sampleComment] ∧ sampleComment.context = CommentContext.PCB ∧
       (CommentContext.PCB = CommentContext.SCH →
         samePage (normPage (sampleComment.location.page.getD ""))
           (normPage "root.kicad_sch"))) :=
  overlay_pin_filter [sampleComment] CommentContext.PCB "root.kicad_sch" sampleComment

end KiCADPrism
